import Mathlib

/-!
Shallow embedding of `src/challenge-2/agents/fraud_alert_foundry_agent.py`.

The script is a linear orchestration of a remote agent service: it loads
four environment variables, builds an MCP tool with a subscription-key
header, creates an agent, a thread, a user message (embedding the content
of a transaction-summary file), and a run; it then polls the run, approving
pending MCP tool calls, and finally prints the run steps and the
conversation transcript.

All interaction with the remote service is modelled by an oracle
(`ServiceOracle`): the identifiers the service hands back and the sequence
of run states returned by successive `runs.get` calls.  The script itself
becomes a pure function producing the list of observable effects
(`Event`): service calls, sleeps and console prints, in program order.
-/

/-- Status of a run, as compared against string literals in the script. -/
inductive RunStatus
  | queued
  | in_progress
  | requires_action
  | completed
  | failed
  | cancelled
  | expired
deriving DecidableEq

/-- A tool call listed by a `SubmitToolApprovalAction`.  `mcp` models a
`RequiredMcpToolCall`; its `buildFails` flag models the possibility that
producing the `ToolApproval` for this call raises an exception (the code
wraps that production in `try/except`).  `other` models any tool call that
is not a `RequiredMcpToolCall`. -/
inductive ToolCall
  | mcp (id : String) (buildFails : Bool)
  | other (id : String)
deriving DecidableEq

/-- The `required_action` attribute of a run: a `SubmitToolApprovalAction`
carrying its tool calls, some other action type, or absent. -/
inductive RequiredAction
  | submitToolApproval (tool_calls : List ToolCall)
  | otherAction
  | noAction
deriving DecidableEq

/-- The run object the service returns: id, status, required action and
last error. -/
structure Run where
  id : String
  status : RunStatus
  required_action : RequiredAction
  last_error : Option String
deriving DecidableEq

/-- Headers carried by the MCP tool and attached to tool approvals; values
are optional because `os.environ.get` may return `None`. -/
abbrev Headers := List (String × Option String)

/-- `ToolApproval(tool_call_id=..., approve=..., headers=...)`. -/
structure ToolApproval where
  tool_call_id : String
  approve : Bool
  headers : Headers
deriving DecidableEq

/-- The `McpTool` object: label, server url and accumulated headers. -/
structure McpTool where
  server_label : String
  server_url : Option String
  headers : Headers
deriving DecidableEq

/-- Insert-or-replace on the header association list. -/
def upsertHeader : Headers → String → Option String → Headers
  | [], k, v => [(k, v)]
  | (k0, v0) :: rest, k, v =>
    if k0 = k then (k, v) :: rest else (k0, v0) :: upsertHeader rest k v

/-- `mcp_tool.update_headers(key, value)`: sets the header `key` to
`value`. -/
def McpTool.update_headers (t : McpTool) (k : String) (v : Option String) : McpTool :=
  McpTool.mk t.server_label t.server_url (upsertHeader t.headers k v)

/-- One text block of a message: `text.value`. -/
structure TextBlock where
  value : String
deriving DecidableEq

/-- One entry of `msg.text_messages`: has a `text` with a `value`. -/
structure TextContent where
  text : TextBlock
deriving DecidableEq

/-- A thread message: role and its list of text contents. -/
structure Message where
  role : String
  text_messages : List TextContent
deriving DecidableEq

/-- A tool call as it appears inside run-step details. -/
structure StepToolCall where
  id : String
  type : String
deriving DecidableEq

/-- One parameter of a function advertised in a `RunStepActivityDetails`. -/
structure FuncParam where
  name : String
  type : String
  description : String
deriving DecidableEq

/-- A function definition inside a run-step activity. -/
structure FunctionDef where
  description : String
  parameters : List FuncParam
deriving DecidableEq

/-- One activity of a `RunStepActivityDetails`: named function tools. -/
structure Activity where
  tools : List (String × FunctionDef)
deriving DecidableEq

/-- The details of a run step: its tool calls and, when the details are a
`RunStepActivityDetails`, its activities. -/
structure StepDetails where
  tool_calls : List StepToolCall
  activities : Option (List Activity)
deriving DecidableEq

/-- A run step as listed by `run_steps.list`. -/
structure RunStep where
  id : String
  status : String
  step_details : StepDetails
deriving DecidableEq

/-- `ListSortOrder` passed to `messages.list`. -/
inductive SortOrder
  | ascending
  | descending
deriving DecidableEq

/-- Observable effects of the script, in program order: remote service
calls, sleeps, and console prints. -/
inductive Event
  | initClient (endpoint : Option String)
  | createAgent (model : Option String) (name : String)
  | printAgentCreated (id : String)
  | printMcpServer (url : Option String)
  | createThread
  | printThreadCreated (id : String)
  | readSummaryFile (path : String)
  | createMessage (thread_id : String) (role : String) (content : String)
  | printMessageCreated (id : String)
  | createRun (thread_id : String) (agent_id : String)
  | printRunCreated (id : String)
  | sleep (seconds : Nat)
  | getRun (thread_id : String) (run_id : String)
  | printNoToolCalls
  | cancelRun (thread_id : String) (run_id : String)
  | printApproving (tool_call_id : String)
  | printApprovalError (tool_call_id : String)
  | printToolApprovals (approvals : List ToolApproval)
  | submitToolApprovals (thread_id : String) (run_id : String) (approvals : List ToolApproval)
  | printCurrentStatus (s : RunStatus)
  | printCompletedStatus (s : RunStatus)
  | printRunFailed (e : Option String)
  | listRunSteps (thread_id : String) (run_id : String)
  | printStepStatus (id : String) (status : String)
  | printMcpToolCallsHeader
  | printStepToolCall (id : String) (type : String)
  | printActivityFunction (name : String) (description : String)
  | printParamsHeader
  | printFuncParam (name : String) (type : String) (description : String)
  | printNoParams
  | printBlank
  | listMessages (thread_id : String) (order : SortOrder)
  | printConversationHeader
  | printMsg (role : String) (text : String)
deriving DecidableEq

/-- The four environment variables read at the top of the script. -/
structure Config where
  project_endpoint : Option String
  model_deployment_name : Option String
  mcp_endpoint : Option String
  mcp_subscription_key : Option String
deriving DecidableEq

/-- `os.environ.get(k)` over an association-list environment. -/
def lookupEnv (env : List (String × String)) (k : String) : Option String :=
  (env.find? (fun p => p.1 == k)).map Prod.snd

/-- The configuration loading block: the four `os.environ.get` calls. -/
def loadConfig (env : List (String × String)) : Config :=
  Config.mk
    (lookupEnv env "AI_FOUNDRY_PROJECT_ENDPOINT")
    (lookupEnv env "MODEL_DEPLOYMENT_NAME")
    (lookupEnv env "MCP_SERVER_ENDPOINT")
    (lookupEnv env "APIM_SUBSCRIPTION_KEY")

/-- The names of the environment variables the configuration reads. -/
def configKeys : List String :=
  ["AI_FOUNDRY_PROJECT_ENDPOINT", "MODEL_DEPLOYMENT_NAME",
   "MCP_SERVER_ENDPOINT", "APIM_SUBSCRIPTION_KEY"]

/-- `McpTool(server_label="fraudalertmcp", server_url=mcp_endpoint)`
followed by `update_headers("Ocp-Apim-Subscription-Key", key)`. -/
def mkMcpTool (cfg : Config) : McpTool :=
  McpTool.update_headers
    (McpTool.mk "fraudalertmcp" cfg.mcp_endpoint [])
    "Ocp-Apim-Subscription-Key" cfg.mcp_subscription_key

/-- The headers the script attaches to each tool approval. -/
def programHeaders (cfg : Config) : Headers :=
  (mkMcpTool cfg).headers

/-- Everything the remote service hands back during one execution: the ids
of created objects, the run returned by `runs.create`, the successive runs
returned by `runs.get`, and the listed run steps and messages. -/
structure ServiceOracle where
  agent_id : String
  thread_id : String
  message_id : String
  createdRun : Run
  pollResponses : List Run
  run_steps : List RunStep
  messages : List Message
deriving DecidableEq

/-- The statuses the `while` loop keeps polling on:
`["queued", "in_progress", "requires_action"]`. -/
def pollStatuses : List RunStatus :=
  [RunStatus.queued, RunStatus.in_progress, RunStatus.requires_action]

/-- Body of the per-tool-call `for` loop for a single tool call: the
events it prints and the approvals it appends.  A `RequiredMcpToolCall`
whose approval is produced without error contributes a `ToolApproval`
with its id, `approve=True` and the MCP headers; one whose production
fails contributes only an error log (the `except` branch); any other tool
call is skipped. -/
def approveStep (h : Headers) : ToolCall → List Event × List ToolApproval
  | ToolCall.mcp cid false =>
      ([Event.printApproving cid], [ToolApproval.mk cid true h])
  | ToolCall.mcp cid true =>
      ([Event.printApproving cid, Event.printApprovalError cid], [])
  | ToolCall.other _ => ([], [])

/-- The per-tool-call `for` loop over the listed tool calls. -/
def processToolCalls (h : Headers) : List ToolCall → List Event × List ToolApproval
  | [] => ([], [])
  | tc :: rest =>
    let s := approveStep h tc
    let r := processToolCalls h rest
    (s.1 ++ r.1, s.2 ++ r.2)

/-- The approval a single tool call contributes, if any. -/
def mcpApproval (h : Headers) : ToolCall → Option ToolApproval
  | ToolCall.mcp cid false => some (ToolApproval.mk cid true h)
  | _ => none

/-- One iteration of the polling loop after the run has been re-fetched as
`r`: the events of the `if` block plus the trailing status print, and
whether the iteration ends in `break`. -/
def iterBody (h : Headers) (tid : String) (r : Run) : List Event × Bool :=
  match r.status, r.required_action with
  | RunStatus.requires_action, RequiredAction.submitToolApproval tcs =>
    if tcs = [] then
      ([Event.printNoToolCalls, Event.cancelRun tid r.id], true)
    else
      let p := processToolCalls h tcs
      (p.1 ++ [Event.printToolApprovals p.2] ++
        (if p.2 ≠ [] then [Event.submitToolApprovals tid r.id p.2] else []) ++
        [Event.printCurrentStatus RunStatus.requires_action], false)
  | st, _ => ([Event.printCurrentStatus st], false)

/-- Whether processing response `r` ends the loop by `break` (empty
tool-call list of a `SubmitToolApprovalAction` while `requires_action`). -/
def breaksLoop (r : Run) : Bool :=
  match r.status, r.required_action with
  | RunStatus.requires_action, RequiredAction.submitToolApproval tcs => tcs.isEmpty
  | _, _ => false

/-- The `while` loop: while the current run status is in `pollStatuses`,
sleep one second, re-fetch the run (consuming the next oracle response)
and run the iteration body on the fetched state.  Returns the emitted
events and the run value held after the loop exits.  An exhausted oracle
simply ends the observation. -/
def pollLoop (h : Headers) (tid : String) : Run → List Run → List Event × Run
  | run, [] => ([], run)
  | run, r :: rest =>
    if run.status ∈ pollStatuses then
      let ib := iterBody h tid r
      if ib.2 then
        (Event.sleep 1 :: Event.getRun tid run.id :: ib.1, r)
      else
        let cont := pollLoop h tid r rest
        (Event.sleep 1 :: Event.getRun tid run.id :: (ib.1 ++ cont.1), cont.2)
    else ([], run)

/-- The oracle responses the loop actually processes: it consumes
responses while the entry condition holds and stops after a breaking
response. -/
def polledRuns : Run → List Run → List Run
  | _, [] => []
  | run, r :: rest =>
    if run.status ∈ pollStatuses then
      r :: (if breaksLoop r then [] else polledRuns r rest)
    else []

/-- The content of the user message: the prompt with the file content
embedded. -/
def promptFor (content : String) : String :=
  "Please send a fraud alert from this transaction summary: " ++ content

/-- Everything before the polling loop, in program order. -/
def preLoopEvents (cfg : Config) (svc : ServiceOracle) (content : String) : List Event :=
  [Event.initClient cfg.project_endpoint,
   Event.createAgent cfg.model_deployment_name "fraud-alert-agent",
   Event.printAgentCreated svc.agent_id,
   Event.printMcpServer (mkMcpTool cfg).server_url,
   Event.createThread,
   Event.printThreadCreated svc.thread_id,
   Event.readSummaryFile "risk-analyzer-tx-summary.md",
   Event.createMessage svc.thread_id "user" (promptFor content),
   Event.printMessageCreated svc.message_id,
   Event.createRun svc.thread_id svc.agent_id,
   Event.printRunCreated svc.createdRun.id]

/-- Printing of one activity of a `RunStepActivityDetails`. -/
def displayActivity (a : Activity) : List Event :=
  (a.tools.map (fun ft =>
    Event.printActivityFunction ft.1 ft.2.description ::
      (if ft.2.parameters.length > 0 then
        Event.printParamsHeader ::
          (ft.2.parameters.map (fun p =>
            [Event.printFuncParam p.name p.type p.description])).flatten
      else [Event.printNoParams]))).flatten

/-- Printing of one run step: status line, tool calls when present,
activity details when the step details are a `RunStepActivityDetails`,
and a trailing blank line. -/
def displayStep (s : RunStep) : List Event :=
  Event.printStepStatus s.id s.status ::
    ((if s.step_details.tool_calls ≠ [] then
        Event.printMcpToolCallsHeader ::
          s.step_details.tool_calls.map (fun c => Event.printStepToolCall c.id c.type)
      else []) ++
     (match s.step_details.activities with
      | some acts => (acts.map displayActivity).flatten
      | none => []) ++
     [Event.printBlank])

/-- The transcript loop: for each message, when it has text contents,
print its uppercased role with the value of its last text content. -/
def transcriptEvents : List Message → List Event
  | [] => []
  | m :: rest =>
    (match m.text_messages.getLast? with
     | some tc => [Event.printMsg m.role.toUpper tc.text.value]
     | none => []) ++ transcriptEvents rest

/-- Everything after the polling loop, in program order: final status
report, failure logging, run-step display and conversation transcript. -/
def postLoopEvents (tid : String) (finalRun : Run) (svc : ServiceOracle) : List Event :=
  Event.printCompletedStatus finalRun.status ::
    ((if finalRun.status = RunStatus.failed then [Event.printRunFailed finalRun.last_error] else []) ++
     (Event.listRunSteps tid finalRun.id :: (svc.run_steps.map displayStep).flatten) ++
     (Event.listMessages tid SortOrder.ascending :: Event.printConversationHeader ::
       transcriptEvents svc.messages))

/-- The whole script as a function of the environment, the content of the
transaction-summary file and the service oracle: the full event trace and
the run value held at the end. -/
def program (env : List (String × String)) (content : String) (svc : ServiceOracle) :
    List Event × Run :=
  let cfg := loadConfig env
  let h := programHeaders cfg
  let lp := pollLoop h svc.thread_id svc.createdRun svc.pollResponses
  (preLoopEvents cfg svc content ++ lp.1 ++ postLoopEvents svc.thread_id lp.2 svc, lp.2)

/-- Recognizer for `runs.create` events. -/
def Event.isCreateRun : Event → Bool
  | Event.createRun _ _ => true
  | _ => false

/-- Recognizer for `runs.get` events. -/
def Event.isGetRun : Event → Bool
  | Event.getRun _ _ => true
  | _ => false

/-- Recognizer for `runs.cancel` events. -/
def Event.isCancelRun : Event → Bool
  | Event.cancelRun _ _ => true
  | _ => false

/-- Recognizer for `messages.create` events. -/
def Event.isCreateMessage : Event → Bool
  | Event.createMessage _ _ _ => true
  | _ => false

/-- Recognizer for `submit_tool_outputs` events. -/
def Event.isSubmit : Event → Bool
  | Event.submitToolApprovals _ _ _ => true
  | _ => false

/-- Recognizer for tool calls that are `RequiredMcpToolCall` instances. -/
def ToolCall.isRequiredMcp : ToolCall → Bool
  | ToolCall.mcp _ _ => true
  | ToolCall.other _ => false

/-- Whether an event submits an approval for the given tool-call id. -/
def submitsApprovalFor (cid : String) : Event → Bool
  | Event.submitToolApprovals _ _ apps => apps.any (fun a => a.tool_call_id == cid)
  | _ => false

/-- Events that are neither run creation, run fetch, run cancel, message
creation nor approval submission. -/
def notServiceWrite (e : Event) : Prop :=
  e.isCreateRun = false ∧ e.isGetRun = false ∧ e.isCancelRun = false ∧
    e.isCreateMessage = false ∧ e.isSubmit = false

/-- Recognizer for transcript print events. -/
def Event.isPrintMsg : Event → Bool
  | Event.printMsg _ _ => true
  | _ => false

/-- A concrete environment supplying all four variables. -/
def envX : List (String × String) :=
  [("AI_FOUNDRY_PROJECT_ENDPOINT", "https-endpoint"),
   ("MODEL_DEPLOYMENT_NAME", "gpt-4o"),
   ("MCP_SERVER_ENDPOINT", "https-mcp"),
   ("APIM_SUBSCRIPTION_KEY", "secret")]

/-- A concrete environment extending `envX` with an unrelated variable. -/
def envY : List (String × String) :=
  envX ++ [("UNRELATED_VARIABLE", "noise")]

/-- A freshly created run, still queued. -/
def runQueued : Run :=
  Run.mk "run1" RunStatus.queued RequiredAction.noAction none

/-- A completed run. -/
def runCompleted : Run :=
  Run.mk "run1" RunStatus.completed RequiredAction.noAction none

/-- A failed run carrying a last error. -/
def runFailed : Run :=
  Run.mk "run1" RunStatus.failed RequiredAction.noAction (some "server error")

/-- A run requiring action whose approval action lists only a tool call
that is not a `RequiredMcpToolCall`. -/
def rOther : Run :=
  Run.mk "run1" RunStatus.requires_action
    (RequiredAction.submitToolApproval [ToolCall.other "oc1"]) none

/-- A run requiring action whose approval action lists no tool calls. -/
def rEmpty : Run :=
  Run.mk "run1" RunStatus.requires_action
    (RequiredAction.submitToolApproval []) none

/-- A run requiring action listing one MCP call and one non-MCP call. -/
def rMixed : Run :=
  Run.mk "run1" RunStatus.requires_action
    (RequiredAction.submitToolApproval
      [ToolCall.mcp "mc1" false, ToolCall.other "oc1"]) none

/-- Oracle whose only requires-action poll lists a single non-MCP tool
call. -/
def svcOther : ServiceOracle :=
  ServiceOracle.mk "ag1" "th1" "msg1" runQueued [rOther, runCompleted] [] []

/-- Oracle for a run that completes at the first poll, with a thread whose
single message has no text contents. -/
def svcNoText : ServiceOracle :=
  ServiceOracle.mk "ag1" "th1" "msg1" runQueued [runCompleted] []
    [Message.mk "assistant" []]

/-- Oracle for a run that fails at the first poll. -/
def svcFail : ServiceOracle :=
  ServiceOracle.mk "ag1" "th1" "msg1" runQueued [runFailed] [] []

/-- Oracle for a run that completes at the first poll. -/
def svcPlain : ServiceOracle :=
  ServiceOracle.mk "ag1" "th1" "msg1" runQueued [runCompleted] [] []


theorem processToolCalls_approvals (h : Headers) (tcs : List ToolCall) :
    (processToolCalls h tcs).2 = tcs.filterMap (mcpApproval h) := by
  induction tcs with
  | nil => rfl
  | cons tc rest ih =>
    cases tc with
    | mcp cid fail =>
      cases fail <;> simp [processToolCalls, approveStep, mcpApproval, ih]
    | other cid => simp [processToolCalls, approveStep, mcpApproval, ih]

theorem processToolCalls_events (h : Headers) (tcs : List ToolCall) :
    ∀ e ∈ (processToolCalls h tcs).1,
      (∃ cid, e = Event.printApproving cid) ∨ (∃ cid, e = Event.printApprovalError cid) := by
  induction tcs with
  | nil => intro e he; simp [processToolCalls] at he
  | cons tc rest ih =>
    intro e he
    simp only [processToolCalls, List.mem_append] at he
    rcases he with he | he
    · cases tc with
      | mcp cid fail =>
        cases fail <;> simp [approveStep] at he
        · exact Or.inl ⟨cid, he⟩
        · rcases he with he | he
          · exact Or.inl ⟨cid, he⟩
          · exact Or.inr ⟨cid, he⟩
      | other cid => simp [approveStep] at he
    · exact ih e he

theorem processToolCalls_notServiceWrite (h : Headers) (tcs : List ToolCall) :
    ∀ e ∈ (processToolCalls h tcs).1, notServiceWrite e := by
  intro e he
  rcases processToolCalls_events h tcs e he with ⟨cid, rfl⟩ | ⟨cid, rfl⟩ <;>
    simp [notServiceWrite, Event.isCreateRun, Event.isGetRun, Event.isCancelRun,
      Event.isCreateMessage, Event.isSubmit]

theorem breaksLoop_iff (r : Run) :
    breaksLoop r = true ↔
      r.status = RunStatus.requires_action ∧
        r.required_action = RequiredAction.submitToolApproval [] := by
  obtain ⟨rid, st, ra, le⟩ := r
  cases st <;> cases ra <;>
    simp [breaksLoop, List.isEmpty_iff]

theorem iterBody_break (h : Headers) (tid : String) (r : Run) :
    (iterBody h tid r).2 = breaksLoop r := by
  obtain ⟨rid, st, ra, le⟩ := r
  cases st <;> cases ra <;>
    simp only [iterBody, breaksLoop]
  case requires_action.submitToolApproval tcs =>
    cases tcs <;> simp [List.isEmpty]

theorem iterBody_events (h : Headers) (tid : String) (r : Run) :
    ∀ e ∈ (iterBody h tid r).1,
      e = Event.printNoToolCalls ∨ e = Event.cancelRun tid r.id ∨
        (∃ cid, e = Event.printApproving cid) ∨
        (∃ cid, e = Event.printApprovalError cid) ∨
        (∃ apps, e = Event.printToolApprovals apps) ∨
        (∃ apps, e = Event.submitToolApprovals tid r.id apps) ∨
        (∃ st, e = Event.printCurrentStatus st) := by
  intro e he
  obtain ⟨rid, st, ra, le⟩ := r
  cases st <;> cases ra <;> simp only [iterBody] at he
  case requires_action.submitToolApproval tcs =>
    by_cases htcs : tcs = []
    · simp [htcs] at he
      rcases he with rfl | rfl
      · exact Or.inl rfl
      · exact Or.inr (Or.inl rfl)
    · by_cases happ : (processToolCalls h tcs).2 = []
      · simp only [if_neg htcs, happ, ne_eq, not_true_eq_false, if_false,
          List.append_nil, List.nil_append, List.mem_append, List.mem_singleton] at he
        rcases he with (he | rfl) | rfl
        · rcases processToolCalls_events h tcs e he with ⟨cid, rfl⟩ | ⟨cid, rfl⟩
          · exact Or.inr (Or.inr (Or.inl ⟨cid, rfl⟩))
          · exact Or.inr (Or.inr (Or.inr (Or.inl ⟨cid, rfl⟩)))
        · exact Or.inr (Or.inr (Or.inr (Or.inr (Or.inl ⟨_, rfl⟩))))
        · exact Or.inr (Or.inr (Or.inr (Or.inr (Or.inr (Or.inr ⟨_, rfl⟩)))))
      · simp only [if_neg htcs, if_pos (by simpa using happ : (processToolCalls h tcs).2 ≠ []),
          List.mem_append, List.mem_singleton] at he
        rcases he with ((he | rfl) | rfl) | rfl
        · rcases processToolCalls_events h tcs e he with ⟨cid, rfl⟩ | ⟨cid, rfl⟩
          · exact Or.inr (Or.inr (Or.inl ⟨cid, rfl⟩))
          · exact Or.inr (Or.inr (Or.inr (Or.inl ⟨cid, rfl⟩)))
        · exact Or.inr (Or.inr (Or.inr (Or.inr (Or.inl ⟨_, rfl⟩))))
        · exact Or.inr (Or.inr (Or.inr (Or.inr (Or.inr (Or.inl ⟨_, rfl⟩)))))
        · exact Or.inr (Or.inr (Or.inr (Or.inr (Or.inr (Or.inr ⟨_, rfl⟩)))))
  all_goals
    simp only [List.mem_singleton] at he
  all_goals
    subst he
  all_goals
    exact Or.inr (Or.inr (Or.inr (Or.inr (Or.inr (Or.inr ⟨_, rfl⟩)))))

theorem iterBody_no_create (h : Headers) (tid : String) (r : Run) :
    ∀ e ∈ (iterBody h tid r).1,
      e.isCreateRun = false ∧ e.isCreateMessage = false ∧ e.isGetRun = false := by
  intro e he
  rcases iterBody_events h tid r e he with rfl | rfl | ⟨c, rfl⟩ | ⟨c, rfl⟩ | ⟨a, rfl⟩ | ⟨a, rfl⟩ | ⟨s, rfl⟩ <;>
    simp [Event.isCreateRun, Event.isCreateMessage, Event.isGetRun]

theorem iterBody_cancel (h : Headers) (tid : String) (r : Run) :
    (∃ e ∈ (iterBody h tid r).1, e.isCancelRun = true) ↔ breaksLoop r = true := by
  constructor
  · rintro ⟨e, he, hce⟩
    rcases iterBody_events h tid r e he with rfl | rfl | ⟨c, rfl⟩ | ⟨c, rfl⟩ | ⟨a, rfl⟩ | ⟨a, rfl⟩ | ⟨s, rfl⟩ <;>
      simp [Event.isCancelRun] at hce
    -- only the cancelRun shape survives; show it forces the breaking branch
    obtain ⟨rid, st, ra, le⟩ := r
    cases st <;> cases ra <;> simp only [iterBody] at he <;>
      simp only [breaksLoop]
    case requires_action.submitToolApproval tcs =>
      by_cases htcs : tcs = []
      · simp [htcs, List.isEmpty]
      · exfalso
        by_cases happ : (processToolCalls h tcs).2 = []
        · simp only [if_neg htcs, happ, ne_eq, not_true_eq_false, if_false,
            List.append_nil, List.nil_append, List.mem_append, List.mem_singleton] at he
          rcases he with (he | he) | he
          · have hns := (processToolCalls_notServiceWrite h tcs _ he).2.2.1
            simp [Event.isCancelRun] at hns
          · exact Event.noConfusion he
          · exact Event.noConfusion he
        · simp only [if_neg htcs, if_pos (by simpa using happ : (processToolCalls h tcs).2 ≠ []),
            List.mem_append, List.mem_singleton] at he
          rcases he with ((he | he) | he) | he
          · have hns := (processToolCalls_notServiceWrite h tcs _ he).2.2.1
            simp [Event.isCancelRun] at hns
          · exact Event.noConfusion he
          · exact Event.noConfusion he
          · exact Event.noConfusion he
    all_goals
      simp only [List.mem_singleton] at he
    all_goals
      exact Event.noConfusion he
  · intro hbr
    obtain ⟨rid, st, ra, le⟩ := r
    have hb := (breaksLoop_iff (Run.mk rid st ra le)).mp hbr
    simp only at hb
    obtain ⟨hst, hra⟩ := hb
    subst hst
    subst hra
    refine ⟨Event.cancelRun tid rid, ?_, rfl⟩
    simp [iterBody]

theorem pollLoop_not_mem (h : Headers) (tid : String) (run : Run) (rs : List Run)
    (hmem : run.status ∉ pollStatuses) : pollLoop h tid run rs = ([], run) := by
  cases rs with
  | nil => rfl
  | cons r rest => simp [pollLoop, hmem]

theorem pollLoop_cons_mem (h : Headers) (tid : String) (run r : Run) (rest : List Run)
    (hmem : run.status ∈ pollStatuses) :
    pollLoop h tid run (r :: rest) =
      (Event.sleep 1 :: Event.getRun tid run.id ::
         ((iterBody h tid r).1 ++
           (if (iterBody h tid r).2 then [] else (pollLoop h tid r rest).1)),
       if (iterBody h tid r).2 then r else (pollLoop h tid r rest).2) := by
  by_cases hbr : (iterBody h tid r).2 <;> simp [pollLoop, hmem, hbr]

theorem pollLoop_no_create (h : Headers) (tid : String) (run : Run) (rs : List Run) :
    ∀ e ∈ (pollLoop h tid run rs).1,
      e.isCreateRun = false ∧ e.isCreateMessage = false := by
  induction rs generalizing run with
  | nil => intro e he; simp [pollLoop] at he
  | cons r rest ih =>
    intro e he
    by_cases hmem : run.status ∈ pollStatuses
    · rw [pollLoop_cons_mem h tid run r rest hmem] at he
      simp only [List.mem_cons, List.mem_append] at he
      rcases he with rfl | rfl | he
      · simp [Event.isCreateRun, Event.isCreateMessage]
      · simp [Event.isCreateRun, Event.isCreateMessage]
      · rcases he with he | he
        · have hni := iterBody_no_create h tid r e he
          exact ⟨hni.1, hni.2.1⟩
        · by_cases hbr : (iterBody h tid r).2
          · simp [hbr] at he
          · simp only [hbr, if_false] at he
            exact ih r e he
    · rw [pollLoop_not_mem h tid run (r :: rest) hmem] at he
      simp at he

theorem pollLoop_cancel_iff (h : Headers) (tid : String) (run : Run) (rs : List Run) :
    (∃ e ∈ (pollLoop h tid run rs).1, e.isCancelRun = true) ↔
      ∃ r ∈ polledRuns run rs,
        r.status = RunStatus.requires_action ∧
          r.required_action = RequiredAction.submitToolApproval [] := by
  induction rs generalizing run with
  | nil => simp [pollLoop, polledRuns]
  | cons r rest ih =>
    by_cases hmem : run.status ∈ pollStatuses
    · rw [pollLoop_cons_mem h tid run r rest hmem]
      by_cases hbr : breaksLoop r = true
      · have hib : (iterBody h tid r).2 = true := by rw [iterBody_break]; exact hbr
        simp only [hib, if_true, polledRuns, hmem, if_pos, hbr]
        constructor
        · intro _
          exact ⟨r, by simp [hbr], (breaksLoop_iff r).mp hbr⟩
        · intro _
          obtain ⟨e, he, hce⟩ := (iterBody_cancel h tid r).mpr hbr
          exact ⟨e, by simp [he], hce⟩
      · have hib : (iterBody h tid r).2 = false := by
          rw [iterBody_break]; exact Bool.not_eq_true _ |>.mp hbr
        simp only [hib, if_false, polledRuns, hmem, if_pos]
        have hbr' : ¬ breaksLoop r = true := hbr
        constructor
        · rintro ⟨e, he, hce⟩
          simp only [List.mem_cons, List.mem_append] at he
          rcases he with rfl | rfl | he | he
          · simp [Event.isCancelRun] at hce
          · simp [Event.isCancelRun] at hce
          · exact absurd ((iterBody_cancel h tid r).mp ⟨e, he, hce⟩) hbr'
          · obtain ⟨r2, hr2, hprop⟩ := (ih r).mp ⟨e, he, hce⟩
            exact ⟨r2, by simp [hbr, hr2], hprop⟩
        · rintro ⟨r2, hr2, hprop⟩
          simp only [hbr, if_false, List.mem_cons] at hr2
          rcases hr2 with rfl | hr2
          · exact absurd ((breaksLoop_iff r2).mpr hprop) hbr'
          · obtain ⟨e, he, hce⟩ := (ih r).mpr ⟨r2, hr2, hprop⟩
            exact ⟨e, by simp [he], hce⟩
    · rw [pollLoop_not_mem h tid run (r :: rest) hmem]
      simp [polledRuns, hmem]

theorem mcpApproval_fields (h : Headers) (tc : ToolCall) (a : ToolApproval)
    (ha : mcpApproval h tc = some a) : a.approve = true ∧ a.headers = h := by
  cases tc with
  | mcp cid fail =>
    cases fail
    · simp [mcpApproval] at ha
      subst ha
      exact ⟨rfl, rfl⟩
    · simp [mcpApproval] at ha
  | other cid => simp [mcpApproval] at ha

theorem processToolCalls_fields (h : Headers) (tcs : List ToolCall) :
    ∀ a ∈ (processToolCalls h tcs).2, a.approve = true ∧ a.headers = h := by
  intro a ha
  rw [processToolCalls_approvals] at ha
  simp only [List.mem_filterMap] at ha
  obtain ⟨tc, _, htc⟩ := ha
  exact mcpApproval_fields h tc a htc

theorem iterBody_submit_apps (h : Headers) (tid : String) (r : Run)
    (t ri : String) (apps : List ToolApproval)
    (he : Event.submitToolApprovals t ri apps ∈ (iterBody h tid r).1) :
    ∃ tcs, r.required_action = RequiredAction.submitToolApproval tcs ∧
      apps = (processToolCalls h tcs).2 ∧ t = tid ∧ ri = r.id ∧ apps ≠ [] := by
  obtain ⟨rid, st, ra, le⟩ := r
  cases st <;> cases ra <;> simp only [iterBody] at he
  case requires_action.submitToolApproval tcs =>
    refine ⟨tcs, rfl, ?_⟩
    by_cases htcs : tcs = []
    · simp [htcs] at he
    · by_cases happ : (processToolCalls h tcs).2 = []
      · simp only [if_neg htcs, happ, ne_eq, not_true_eq_false, if_false,
          List.append_nil, List.nil_append, List.mem_append, List.mem_singleton] at he
        rcases he with (he | he) | he
        · rcases processToolCalls_events h tcs _ he with ⟨cid, hc⟩ | ⟨cid, hc⟩ <;>
            exact Event.noConfusion hc
        · exact Event.noConfusion he
        · exact Event.noConfusion he
      · simp only [if_neg htcs, if_pos (by simpa using happ : (processToolCalls h tcs).2 ≠ []),
          List.mem_append, List.mem_singleton] at he
        rcases he with ((he | he) | he) | he
        · rcases processToolCalls_events h tcs _ he with ⟨cid, hc⟩ | ⟨cid, hc⟩ <;>
            exact Event.noConfusion hc
        · exact Event.noConfusion he
        · injection he with h1 h2 h3
          exact ⟨h3, h1, h2, by rw [h3]; exact happ⟩
        · exact Event.noConfusion he
  all_goals
    simp only [List.mem_singleton] at he
  all_goals
    exact Event.noConfusion he

theorem pollLoop_submit_fields (h : Headers) (tid : String) (run : Run) (rs : List Run) :
    ∀ e ∈ (pollLoop h tid run rs).1, ∀ t ri apps,
      e = Event.submitToolApprovals t ri apps →
        ∀ a ∈ apps, a.approve = true ∧ a.headers = h := by
  induction rs generalizing run with
  | nil => intro e he; simp [pollLoop] at he
  | cons r rest ih =>
    intro e he t ri apps heq a ha
    by_cases hmem : run.status ∈ pollStatuses
    · rw [pollLoop_cons_mem h tid run r rest hmem] at he
      simp only [List.mem_cons, List.mem_append] at he
      rcases he with rfl | rfl | he | he
      · exact Event.noConfusion heq
      · exact Event.noConfusion heq
      · subst heq
        obtain ⟨tcs, _, happs, _, _, _⟩ := iterBody_submit_apps h tid r t ri apps he
        subst happs
        exact processToolCalls_fields h tcs a ha
      · by_cases hbr : (iterBody h tid r).2
        · simp [hbr] at he
        · simp only [hbr, if_false] at he
          exact ih r e he t ri apps heq a ha
    · rw [pollLoop_not_mem h tid run (r :: rest) hmem] at he
      simp at he

theorem displayActivity_notServiceWrite (a : Activity) :
    ∀ e ∈ displayActivity a, notServiceWrite e := by
  intro e he
  simp only [displayActivity, List.mem_flatten, List.mem_map] at he
  obtain ⟨l, ⟨ft, hft, rfl⟩, hel⟩ := he
  rw [List.mem_cons] at hel
  rcases hel with rfl | hel
  · simp [notServiceWrite, Event.isCreateRun, Event.isGetRun, Event.isCancelRun,
      Event.isCreateMessage, Event.isSubmit]
  · by_cases hp : ft.2.parameters.length > 0
    · rw [if_pos hp, List.mem_cons] at hel
      rcases hel with rfl | hel
      · simp [notServiceWrite, Event.isCreateRun, Event.isGetRun, Event.isCancelRun,
          Event.isCreateMessage, Event.isSubmit]
      · simp only [List.mem_flatten, List.mem_map] at hel
        obtain ⟨l2, ⟨p, hp2, rfl⟩, hel2⟩ := hel
        rw [List.mem_singleton] at hel2
        subst hel2
        simp [notServiceWrite, Event.isCreateRun, Event.isGetRun, Event.isCancelRun,
          Event.isCreateMessage, Event.isSubmit]
    · rw [if_neg hp, List.mem_singleton] at hel
      subst hel
      simp [notServiceWrite, Event.isCreateRun, Event.isGetRun, Event.isCancelRun,
        Event.isCreateMessage, Event.isSubmit]

theorem displayStep_notServiceWrite (s : RunStep) :
    ∀ e ∈ displayStep s, notServiceWrite e := by
  intro e he
  simp only [displayStep, List.mem_cons, List.mem_append] at he
  rcases he with rfl | (he | he) | (rfl | he)
  · simp [notServiceWrite, Event.isCreateRun, Event.isGetRun, Event.isCancelRun,
      Event.isCreateMessage, Event.isSubmit]
  · by_cases htc : s.step_details.tool_calls ≠ []
    · rw [if_pos htc, List.mem_cons] at he
      rcases he with rfl | he
      · simp [notServiceWrite, Event.isCreateRun, Event.isGetRun, Event.isCancelRun,
          Event.isCreateMessage, Event.isSubmit]
      · simp only [List.mem_map] at he
        obtain ⟨c, hc, rfl⟩ := he
        simp [notServiceWrite, Event.isCreateRun, Event.isGetRun, Event.isCancelRun,
          Event.isCreateMessage, Event.isSubmit]
    · rw [if_neg htc] at he
      simp at he
  · cases hact : s.step_details.activities with
    | none => rw [hact] at he; simp at he
    | some acts =>
      rw [hact] at he
      simp only [List.mem_flatten, List.mem_map] at he
      obtain ⟨l, ⟨a, ha, rfl⟩, hel⟩ := he
      exact displayActivity_notServiceWrite a e hel
  · simp [notServiceWrite, Event.isCreateRun, Event.isGetRun, Event.isCancelRun,
      Event.isCreateMessage, Event.isSubmit]
  · simp at he

theorem transcriptEvents_shape (msgs : List Message) :
    ∀ e ∈ transcriptEvents msgs, ∃ ro tx, e = Event.printMsg ro tx := by
  induction msgs with
  | nil => intro e he; simp [transcriptEvents] at he
  | cons m rest ih =>
    intro e he
    simp only [transcriptEvents, List.mem_append] at he
    rcases he with he | he
    · cases hlast : m.text_messages.getLast? with
      | none => rw [hlast] at he; simp at he
      | some tc =>
        rw [hlast] at he
        rw [List.mem_singleton] at he
        exact ⟨m.role.toUpper, tc.text.value, he⟩
    · exact ih e he

theorem transcriptEvents_eq (msgs : List Message) :
    transcriptEvents msgs =
      msgs.filterMap (fun m =>
        (m.text_messages.getLast?).map (fun tc => Event.printMsg m.role.toUpper tc.text.value)) := by
  induction msgs with
  | nil => rfl
  | cons m rest ih =>
    cases hlast : m.text_messages.getLast? with
    | none => simp [transcriptEvents, hlast, ih]
    | some tc => simp [transcriptEvents, hlast, ih]

theorem postLoopEvents_notServiceWrite (tid : String) (finalRun : Run) (svc : ServiceOracle) :
    ∀ e ∈ postLoopEvents tid finalRun svc, notServiceWrite e := by
  intro e he
  simp only [postLoopEvents, List.mem_cons, List.mem_append] at he
  rcases he with rfl | (he | rfl | he) | (rfl | rfl | he)
  · simp [notServiceWrite, Event.isCreateRun, Event.isGetRun, Event.isCancelRun,
      Event.isCreateMessage, Event.isSubmit]
  · by_cases hf : finalRun.status = RunStatus.failed
    · rw [if_pos hf, List.mem_singleton] at he
      subst he
      simp [notServiceWrite, Event.isCreateRun, Event.isGetRun, Event.isCancelRun,
        Event.isCreateMessage, Event.isSubmit]
    · rw [if_neg hf] at he
      simp at he
  · simp [notServiceWrite, Event.isCreateRun, Event.isGetRun, Event.isCancelRun,
      Event.isCreateMessage, Event.isSubmit]
  · simp only [List.mem_flatten, List.mem_map] at he
    obtain ⟨l, ⟨s, hs, rfl⟩, hel⟩ := he
    exact displayStep_notServiceWrite s e hel
  · simp [notServiceWrite, Event.isCreateRun, Event.isGetRun, Event.isCancelRun,
      Event.isCreateMessage, Event.isSubmit]
  · simp [notServiceWrite, Event.isCreateRun, Event.isGetRun, Event.isCancelRun,
      Event.isCreateMessage, Event.isSubmit]
  · obtain ⟨ro, tx, rfl⟩ := transcriptEvents_shape svc.messages e he
    simp [notServiceWrite, Event.isCreateRun, Event.isGetRun, Event.isCancelRun,
      Event.isCreateMessage, Event.isSubmit]

theorem preLoopEvents_class (cfg : Config) (svc : ServiceOracle) (content : String) :
    ∀ e ∈ preLoopEvents cfg svc content,
      e.isCancelRun = false ∧ e.isGetRun = false ∧ e.isSubmit = false := by
  intro e he
  simp only [preLoopEvents, List.mem_cons] at he
  rcases he with rfl | rfl | rfl | rfl | rfl | rfl | rfl | rfl | rfl | rfl | rfl | he
  all_goals
    first
      | exact absurd he (List.not_mem_nil e)
      | simp [Event.isCancelRun, Event.isGetRun, Event.isSubmit]

theorem preLoopEvents_countP_createRun (cfg : Config) (svc : ServiceOracle) (content : String) :
    List.countP Event.isCreateRun (preLoopEvents cfg svc content) = 1 := by
  simp [preLoopEvents, List.countP_cons, Event.isCreateRun]

theorem preLoopEvents_countP_createMessage (cfg : Config) (svc : ServiceOracle) (content : String) :
    List.countP Event.isCreateMessage (preLoopEvents cfg svc content) = 1 := by
  simp [preLoopEvents, List.countP_cons, Event.isCreateMessage]

theorem pollLoop_countP_zero (h : Headers) (tid : String) (run : Run) (rs : List Run)
    (p : Event → Bool) (hp : ∀ e ∈ (pollLoop h tid run rs).1, p e = false) :
    List.countP p (pollLoop h tid run rs).1 = 0 :=
  List.countP_eq_zero.mpr (by intro e he; simp [hp e he])

/-- Claim C2: the polling loop iterates exactly while the run status is in
the set queued, in_progress, requires_action — when the held status is
outside the set the loop runs no iteration and emits nothing — and each
iteration first sleeps the fixed one-second interval, then re-fetches the
run state, and only then inspects the freshly fetched state. -/
theorem c2_loop_structure (h : Headers) (tid : String) (run : Run) (rs : List Run) :
    (run.status ∉ pollStatuses → pollLoop h tid run rs = ([], run)) ∧
    (∀ r rest, rs = r :: rest → run.status ∈ pollStatuses →
      pollLoop h tid run rs =
        (Event.sleep 1 :: Event.getRun tid run.id ::
           ((iterBody h tid r).1 ++
             (if (iterBody h tid r).2 then [] else (pollLoop h tid r rest).1)),
         if (iterBody h tid r).2 then r else (pollLoop h tid r rest).2)) := by
  constructor
  · intro hmem
    exact pollLoop_not_mem h tid run rs hmem
  · rintro r rest rfl hmem
    exact pollLoop_cons_mem h tid run r rest hmem

/-- Witness for C2 at a concrete queued run and a single completed
response. -/
theorem c2_loop_structure_witness :
    pollLoop [] "th1" runQueued [runCompleted] =
      (Event.sleep 1 :: Event.getRun "th1" runQueued.id ::
         ((iterBody [] "th1" runCompleted).1 ++
           (if (iterBody [] "th1" runCompleted).2 then []
            else (pollLoop [] "th1" runCompleted []).1)),
       if (iterBody [] "th1" runCompleted).2 then runCompleted
       else (pollLoop [] "th1" runCompleted []).2) :=
  (c2_loop_structure [] "th1" runQueued [runCompleted]).2 runCompleted [] rfl (by decide)

/-- Claim C10: when a poll observes requires_action with an empty
tool-call list, the loop cancels the run and exits by break without
re-fetching: the remaining oracle responses are not consumed, the run
value held at loop exit is the fetched one whose status is still
requires_action, and the completion-status line the program then prints
reports requires_action. -/
theorem c10_cancel_break (h : Headers) (tid : String) (run r : Run) (rest : List Run)
    (hrun : run.status ∈ pollStatuses)
    (hst : r.status = RunStatus.requires_action)
    (hra : r.required_action = RequiredAction.submitToolApproval []) :
    pollLoop h tid run (r :: rest) =
      ([Event.sleep 1, Event.getRun tid run.id, Event.printNoToolCalls,
        Event.cancelRun tid r.id], r) ∧
    (pollLoop h tid run (r :: rest)).2.status = RunStatus.requires_action ∧
    (∀ env content svc, svc.createdRun = run → svc.pollResponses = r :: rest →
        tid = svc.thread_id →
        Event.printCompletedStatus RunStatus.requires_action ∈
          (program env content svc).1) := by
  have hib : iterBody h tid r = ([Event.printNoToolCalls, Event.cancelRun tid r.id], true) := by
    simp [iterBody, hst, hra]
  have hloop : pollLoop h tid run (r :: rest) =
      ([Event.sleep 1, Event.getRun tid run.id, Event.printNoToolCalls,
        Event.cancelRun tid r.id], r) := by
    rw [pollLoop_cons_mem h tid run r rest hrun, hib]
    simp
  refine ⟨hloop, by rw [hloop]; exact hst, ?_⟩
  rintro env content svc h1 h2 rfl
  have hib2 : iterBody (programHeaders (loadConfig env)) svc.thread_id r =
      ([Event.printNoToolCalls, Event.cancelRun svc.thread_id r.id], true) := by
    simp [iterBody, hst, hra]
  have hloop2 : pollLoop (programHeaders (loadConfig env)) svc.thread_id
      svc.createdRun svc.pollResponses =
      ([Event.sleep 1, Event.getRun svc.thread_id svc.createdRun.id,
        Event.printNoToolCalls, Event.cancelRun svc.thread_id r.id], r) := by
    rw [h2, h1, pollLoop_cons_mem _ _ run r rest hrun, hib2]
    simp
  have htr : (program env content svc).1 =
      preLoopEvents (loadConfig env) svc content ++
        ([Event.sleep 1, Event.getRun svc.thread_id svc.createdRun.id,
          Event.printNoToolCalls, Event.cancelRun svc.thread_id r.id] ++
          postLoopEvents svc.thread_id r svc) := by
    simp only [program, hloop2, List.append_assoc]
  rw [htr]
  have hmem : Event.printCompletedStatus r.status ∈ postLoopEvents svc.thread_id r svc := by
    simp [postLoopEvents]
  rw [hst] at hmem
  exact List.mem_append_right _ (List.mem_append_right _ hmem)

/-- Witness for C10 at a concrete queued run and an empty-tool-call
requires_action response. -/
theorem c10_cancel_break_witness :
    pollLoop [] "th1" runQueued [rEmpty] =
      ([Event.sleep 1, Event.getRun "th1" runQueued.id, Event.printNoToolCalls,
        Event.cancelRun "th1" rEmpty.id], rEmpty) :=
  (c10_cancel_break [] "th1" runQueued rEmpty [] (by decide) rfl rfl).1

/-- Claim C9: in a requires_action iteration, listed tool calls that are
not RequiredMcpToolCall instances are silently skipped: when the tool-call
list is non-empty but contains no RequiredMcpToolCall, no approval is
built, no submission and no cancellation happen, the iteration does not
break, and the loop goes on to poll the next response. -/
theorem c9_non_mcp_skipped (h : Headers) (tid : String) (r : Run) (tcs : List ToolCall)
    (hst : r.status = RunStatus.requires_action)
    (hra : r.required_action = RequiredAction.submitToolApproval tcs)
    (hne : tcs ≠ [])
    (hnm : ∀ tc ∈ tcs, tc.isRequiredMcp = false) :
    (processToolCalls h tcs).2 = [] ∧
    (∀ e ∈ (iterBody h tid r).1, e.isSubmit = false ∧ e.isCancelRun = false) ∧
    (iterBody h tid r).2 = false ∧
    (∀ run rest, run.status ∈ pollStatuses →
        pollLoop h tid run (r :: rest) =
          (Event.sleep 1 :: Event.getRun tid run.id ::
             ((iterBody h tid r).1 ++ (pollLoop h tid r rest).1),
           (pollLoop h tid r rest).2)) := by
  have hbrf : breaksLoop r = false := by
    have : ¬ breaksLoop r = true := by
      rw [breaksLoop_iff]
      rintro ⟨h1, h2⟩
      rw [hra] at h2
      injection h2 with h3
      exact hne h3
    exact Bool.not_eq_true _ |>.mp this
  have hibf : (iterBody h tid r).2 = false := by rw [iterBody_break, hbrf]
  have happs : (processToolCalls h tcs).2 = [] := by
    rw [processToolCalls_approvals]
    rw [List.filterMap_eq_nil_iff]
    intro tc htc
    cases tc with
    | mcp cid fail =>
      have := hnm _ htc
      simp [ToolCall.isRequiredMcp] at this
    | other cid => rfl
  refine ⟨happs, ?_, hibf, ?_⟩
  · intro e he
    constructor
    · cases heq : e.isSubmit with
      | false => rfl
      | true =>
        exfalso
        cases e <;> simp [Event.isSubmit] at heq
        case submitToolApprovals t ri apps =>
          obtain ⟨tcs2, hra2, happ2, _, _, hnen⟩ := iterBody_submit_apps h tid r t ri apps he
          rw [hra] at hra2
          injection hra2 with h4
          subst h4
          rw [happs] at happ2
          exact hnen happ2
    · cases heq : e.isCancelRun with
      | false => rfl
      | true =>
        exfalso
        have := (iterBody_cancel h tid r).mp ⟨e, he, heq⟩
        rw [hbrf] at this
        exact Bool.false_ne_true this
  · intro run rest hmem
    rw [pollLoop_cons_mem h tid run r rest hmem, hibf]
    simp

/-- Witness for C9: a requires_action response listing only a non-MCP
tool call, polled from a queued run with one further response pending. -/
theorem c9_non_mcp_skipped_witness :
    pollLoop [] "th1" runQueued (rOther :: [runCompleted]) =
      (Event.sleep 1 :: Event.getRun "th1" runQueued.id ::
         ((iterBody [] "th1" rOther).1 ++ (pollLoop [] "th1" rOther [runCompleted]).1),
       (pollLoop [] "th1" rOther [runCompleted]).2) :=
  (c9_non_mcp_skipped [] "th1" rOther [ToolCall.other "oc1"] rfl rfl (by decide)
    (by decide)).2.2.2 runQueued [runCompleted] (by decide)

/-- Claim C5: a failure while producing the approval of one tool call is
caught inside the per-tool-call loop — it yields only the per-call error
log, leaves the events and approvals of every other tool call unchanged,
and the approvals built are exactly those of the same list without the
failing call. -/
theorem c5_per_call_failure (h : Headers) (a b : List ToolCall) (cid : String) :
    processToolCalls h (a ++ ToolCall.mcp cid true :: b) =
      ((processToolCalls h a).1 ++
        (Event.printApproving cid :: Event.printApprovalError cid ::
          (processToolCalls h b).1),
       (processToolCalls h a).2 ++ (processToolCalls h b).2) ∧
    (processToolCalls h (a ++ ToolCall.mcp cid true :: b)).2 =
      (processToolCalls h (a ++ b)).2 := by
  have key : ∀ xs : List ToolCall,
      processToolCalls h (xs ++ ToolCall.mcp cid true :: b) =
        ((processToolCalls h xs).1 ++
          (Event.printApproving cid :: Event.printApprovalError cid ::
            (processToolCalls h b).1),
         (processToolCalls h xs).2 ++ (processToolCalls h b).2) := by
    intro xs
    induction xs with
    | nil => simp [processToolCalls, approveStep]
    | cons tc rest ih =>
      simp only [List.cons_append, processToolCalls, List.append_eq, ih, List.append_assoc]
  refine ⟨key a, ?_⟩
  rw [(key a)]
  rw [processToolCalls_approvals, processToolCalls_approvals, processToolCalls_approvals,
    List.filterMap_append]

/-- Claim C3: the run-cancel operation is invoked if and only if one of
the polls the loop actually processes observes status requires_action
with a SubmitToolApprovalAction whose tool-call list is empty; no other
part of the program ever emits a cancel. -/
theorem c3_cancel_iff (env : List (String × String)) (content : String) (svc : ServiceOracle) :
    (∃ e ∈ (program env content svc).1, e.isCancelRun = true) ↔
      ∃ r ∈ polledRuns svc.createdRun svc.pollResponses,
        r.status = RunStatus.requires_action ∧
          r.required_action = RequiredAction.submitToolApproval [] := by
  have htr : (program env content svc).1 =
      preLoopEvents (loadConfig env) svc content ++
        ((pollLoop (programHeaders (loadConfig env)) svc.thread_id svc.createdRun
            svc.pollResponses).1 ++
          postLoopEvents svc.thread_id
            (pollLoop (programHeaders (loadConfig env)) svc.thread_id svc.createdRun
              svc.pollResponses).2 svc) := rfl
  rw [← pollLoop_cancel_iff (programHeaders (loadConfig env)) svc.thread_id
    svc.createdRun svc.pollResponses]
  constructor
  · rintro ⟨e, he, hce⟩
    rw [htr] at he
    rcases List.mem_append.mp he with he | he
    · rw [(preLoopEvents_class _ _ _ e he).1] at hce
      exact (Bool.false_ne_true hce).elim
    · rcases List.mem_append.mp he with he | he
      · exact ⟨e, he, hce⟩
      · rw [(postLoopEvents_notServiceWrite _ _ _ e he).2.2.1] at hce
        exact (Bool.false_ne_true hce).elim
  · rintro ⟨e, he, hce⟩
    refine ⟨e, ?_, hce⟩
    rw [htr]
    exact List.mem_append_right _ (List.mem_append_left _ he)

/-- Claim C1 counterexample: the polled run requires action and its
approval action lists the tool call "oc1", yet the program submits no
approval at all — the listed tool call is not approved, because it is not
a RequiredMcpToolCall. -/
theorem c1_counterexample :
    (∃ r ∈ polledRuns svcOther.createdRun svcOther.pollResponses,
        r.status = RunStatus.requires_action ∧
          r.required_action = RequiredAction.submitToolApproval [ToolCall.other "oc1"]) ∧
      (program envX "tx summary" svcOther).1.filter Event.isSubmit = [] := by
  decide

/-- Claim C1 (amended): in a requires_action iteration with a nonempty
tool-call list, the program builds an approval for every listed
RequiredMcpToolCall whose approval production succeeds — a ToolApproval
with that call's id, approve set to true, and the MCP headers, which
consist exactly of the Ocp-Apim-Subscription-Key header holding the
APIM_SUBSCRIPTION_KEY environment value — and submits exactly those
approvals to the run whenever at least one was built. -/
theorem c1_mcp_approvals (env : List (String × String)) (tid : String) (r : Run)
    (tcs : List ToolCall)
    (hst : r.status = RunStatus.requires_action)
    (hra : r.required_action = RequiredAction.submitToolApproval tcs)
    (hne : tcs ≠ []) :
    (processToolCalls (programHeaders (loadConfig env)) tcs).2 =
        tcs.filterMap (mcpApproval (programHeaders (loadConfig env))) ∧
    (∀ cid, ToolCall.mcp cid false ∈ tcs →
        ToolApproval.mk cid true (programHeaders (loadConfig env)) ∈
          (processToolCalls (programHeaders (loadConfig env)) tcs).2) ∧
    programHeaders (loadConfig env) =
        [("Ocp-Apim-Subscription-Key", lookupEnv env "APIM_SUBSCRIPTION_KEY")] ∧
    ((processToolCalls (programHeaders (loadConfig env)) tcs).2 ≠ [] →
        Event.submitToolApprovals tid r.id
            (processToolCalls (programHeaders (loadConfig env)) tcs).2 ∈
          (iterBody (programHeaders (loadConfig env)) tid r).1) := by
  refine ⟨processToolCalls_approvals _ tcs, ?_, rfl, ?_⟩
  · intro cid hmem
    rw [processToolCalls_approvals]
    exact List.mem_filterMap.mpr ⟨ToolCall.mcp cid false, hmem, rfl⟩
  · intro hne2
    simp only [iterBody, hst, hra, if_neg hne]
    simp [hne2]

/-- Witness for amended C1: with the concrete environment, a listed MCP
call "mc1" yields an approval carrying the subscription-key header. -/
theorem c1_mcp_approvals_witness :
    ToolApproval.mk "mc1" true [("Ocp-Apim-Subscription-Key", some "secret")] ∈
      (processToolCalls (programHeaders (loadConfig envX))
        [ToolCall.mcp "mc1" false, ToolCall.other "oc1"]).2 :=
  (c1_mcp_approvals envX "th1" rMixed [ToolCall.mcp "mc1" false, ToolCall.other "oc1"]
      rfl rfl (by decide)).2.1 "mc1" (by decide)

/-- Claim C4 counterexample: the thread holds one message, but since it
has no text contents the program prints no transcript line at all — not
every message of the thread is printed. -/
theorem c4_counterexample :
    svcNoText.messages = [Message.mk "assistant" []] ∧
      (program envX "tx summary" svcNoText).1.filter Event.isPrintMsg = [] := by
  decide

/-- Claim C4 (amended): after the polling loop the program lists the
thread messages in ascending order and prints, for every message that has
at least one text content, one line with its uppercased role and the
value of its last text content, in thread order; messages with no text
contents are skipped. -/
theorem c4_transcript (env : List (String × String)) (content : String) (svc : ServiceOracle) :
    List.IsSuffix
      (Event.listMessages svc.thread_id SortOrder.ascending ::
        Event.printConversationHeader :: transcriptEvents svc.messages)
      (program env content svc).1 ∧
    transcriptEvents svc.messages =
      svc.messages.filterMap (fun m =>
        (m.text_messages.getLast?).map
          (fun tc => Event.printMsg m.role.toUpper tc.text.value)) := by
  refine ⟨?_, transcriptEvents_eq svc.messages⟩
  have h1 : List.IsSuffix
      (Event.listMessages svc.thread_id SortOrder.ascending ::
        Event.printConversationHeader :: transcriptEvents svc.messages)
      (postLoopEvents svc.thread_id
        (pollLoop (programHeaders (loadConfig env)) svc.thread_id svc.createdRun
          svc.pollResponses).2 svc) := by
    unfold postLoopEvents
    refine List.IsSuffix.trans ?_ (List.suffix_cons _ _)
    exact List.suffix_append _ _
  have h2 : List.IsSuffix
      (postLoopEvents svc.thread_id
        (pollLoop (programHeaders (loadConfig env)) svc.thread_id svc.createdRun
          svc.pollResponses).2 svc)
      (program env content svc).1 := by
    have htr : (program env content svc).1 =
        preLoopEvents (loadConfig env) svc content ++
          ((pollLoop (programHeaders (loadConfig env)) svc.thread_id svc.createdRun
              svc.pollResponses).1 ++
            postLoopEvents svc.thread_id
              (pollLoop (programHeaders (loadConfig env)) svc.thread_id svc.createdRun
                svc.pollResponses).2 svc) := rfl
    rw [htr]
    exact List.IsSuffix.trans (List.suffix_append _ _) (List.suffix_append _ _)
  exact h1.trans h2

/-- Claim C6: a run leaving the loop with status failed has its last
error logged; the whole execution creates exactly one run, and after the
loop exits the program performs no further run creation and no further
run fetch. -/
theorem c6_failed_no_retry (env : List (String × String)) (content : String)
    (svc : ServiceOracle) :
    ((program env content svc).2.status = RunStatus.failed →
        Event.printRunFailed (program env content svc).2.last_error ∈
          (program env content svc).1) ∧
    List.countP Event.isCreateRun (program env content svc).1 = 1 ∧
    (∃ pre, (program env content svc).1 =
        pre ++ postLoopEvents svc.thread_id (program env content svc).2 svc) ∧
    (∀ e ∈ postLoopEvents svc.thread_id (program env content svc).2 svc,
        e.isGetRun = false ∧ e.isCreateRun = false) := by
  have htr : (program env content svc).1 =
      preLoopEvents (loadConfig env) svc content ++
        ((pollLoop (programHeaders (loadConfig env)) svc.thread_id svc.createdRun
            svc.pollResponses).1 ++
          postLoopEvents svc.thread_id (program env content svc).2 svc) := rfl
  refine ⟨?_, ?_, ?_, ?_⟩
  · intro hf
    have hmem : Event.printRunFailed (program env content svc).2.last_error ∈
        postLoopEvents svc.thread_id (program env content svc).2 svc := by
      unfold postLoopEvents
      simp [hf]
    rw [htr]
    exact List.mem_append_right _ (List.mem_append_right _ hmem)
  · rw [htr, List.countP_append, List.countP_append]
    rw [preLoopEvents_countP_createRun]
    rw [pollLoop_countP_zero _ _ _ _ _
      (fun e he => (pollLoop_no_create _ _ _ _ e he).1)]
    rw [List.countP_eq_zero.mpr
      (fun e he => by simp [(postLoopEvents_notServiceWrite _ _ _ e he).1])]
  · exact ⟨preLoopEvents (loadConfig env) svc content ++
      (pollLoop (programHeaders (loadConfig env)) svc.thread_id svc.createdRun
        svc.pollResponses).1, by rw [htr, List.append_assoc]⟩
  · intro e he
    exact ⟨(postLoopEvents_notServiceWrite _ _ _ e he).2.1,
      (postLoopEvents_notServiceWrite _ _ _ e he).1⟩

/-- Witness for C6: a run that fails at the first poll has its last
error printed. -/
theorem c6_failed_no_retry_witness :
    (program envX "tx summary" svcFail).2.status = RunStatus.failed ∧
      Event.printRunFailed (program envX "tx summary" svcFail).2.last_error ∈
        (program envX "tx summary" svcFail).1 :=
  ⟨by decide, (c6_failed_no_retry envX "tx summary" svcFail).1 (by decide)⟩

/-- Claim C7: configuration comes from exactly the four environment
variables — two environments agreeing on them produce identical behaviour
— and each variable plays its stated role: AI_FOUNDRY_PROJECT_ENDPOINT is
the client endpoint, MODEL_DEPLOYMENT_NAME the agent's model,
MCP_SERVER_ENDPOINT the MCP server url, and APIM_SUBSCRIPTION_KEY the
value of the Ocp-Apim-Subscription-Key header carried by every submitted
tool approval. -/
theorem c7_config (env env2 : List (String × String)) (content : String)
    (svc : ServiceOracle) :
    ((∀ k ∈ configKeys, lookupEnv env k = lookupEnv env2 k) →
        program env content svc = program env2 content svc) ∧
    Event.initClient (lookupEnv env "AI_FOUNDRY_PROJECT_ENDPOINT") ∈
      (program env content svc).1 ∧
    Event.createAgent (lookupEnv env "MODEL_DEPLOYMENT_NAME") "fraud-alert-agent" ∈
      (program env content svc).1 ∧
    Event.printMcpServer (lookupEnv env "MCP_SERVER_ENDPOINT") ∈
      (program env content svc).1 ∧
    programHeaders (loadConfig env) =
      [("Ocp-Apim-Subscription-Key", lookupEnv env "APIM_SUBSCRIPTION_KEY")] ∧
    (∀ e ∈ (program env content svc).1, ∀ t ri apps,
        e = Event.submitToolApprovals t ri apps →
          ∀ a ∈ apps,
            a.headers =
              [("Ocp-Apim-Subscription-Key", lookupEnv env "APIM_SUBSCRIPTION_KEY")]) := by
  have htr : (program env content svc).1 =
      preLoopEvents (loadConfig env) svc content ++
        ((pollLoop (programHeaders (loadConfig env)) svc.thread_id svc.createdRun
            svc.pollResponses).1 ++
          postLoopEvents svc.thread_id
            (pollLoop (programHeaders (loadConfig env)) svc.thread_id svc.createdRun
              svc.pollResponses).2 svc) := rfl
  refine ⟨?_, ?_, ?_, ?_, rfl, ?_⟩
  · intro hk
    have hcfg : loadConfig env = loadConfig env2 := by
      unfold loadConfig
      rw [hk _ (by simp [configKeys]), hk _ (by simp [configKeys]),
        hk _ (by simp [configKeys]), hk _ (by simp [configKeys])]
    unfold program
    rw [hcfg]
  · rw [htr]
    apply List.mem_append_left
    simp [preLoopEvents, loadConfig]
  · rw [htr]
    apply List.mem_append_left
    simp [preLoopEvents, loadConfig]
  · rw [htr]
    apply List.mem_append_left
    simp [preLoopEvents, loadConfig, mkMcpTool, McpTool.update_headers]
  · intro e he t ri apps heq a ha
    rw [htr] at he
    rcases List.mem_append.mp he with he | he
    · have hs := (preLoopEvents_class _ _ _ e he).2.2
      rw [heq] at hs
      simp [Event.isSubmit] at hs
    · rcases List.mem_append.mp he with he | he
      · have hh := pollLoop_submit_fields (programHeaders (loadConfig env)) svc.thread_id
          svc.createdRun svc.pollResponses e he t ri apps heq a ha
        exact hh.2.trans rfl
      · have hs := (postLoopEvents_notServiceWrite _ _ _ e he).2.2.2.2
        rw [heq] at hs
        simp [Event.isSubmit] at hs

/-- Witness for C7: extending the environment with an unrelated variable
leaves the program's behaviour unchanged. -/
theorem c7_config_witness :
    program envX "tx summary" svcPlain = program envY "tx summary" svcPlain :=
  (c7_config envX envY "tx summary" svcPlain).1 (by decide)

/-- Claim C8: the transaction-summary content is embedded whole into the
single user message created on the thread — its content is the fixed
prompt followed verbatim by the file content — and that message creation
happens before the run is created. -/
theorem c8_message_embedding (env : List (String × String)) (content : String)
    (svc : ServiceOracle) :
    List.countP Event.isCreateMessage (program env content svc).1 = 1 ∧
    (∃ pre post, (program env content svc).1 =
        pre ++ Event.createMessage svc.thread_id "user"
            ("Please send a fraud alert from this transaction summary: " ++ content) :: post ∧
          (∀ e ∈ pre, e.isCreateRun = false) ∧
          Event.createRun svc.thread_id svc.agent_id ∈ post) := by
  have htr : (program env content svc).1 =
      preLoopEvents (loadConfig env) svc content ++
        ((pollLoop (programHeaders (loadConfig env)) svc.thread_id svc.createdRun
            svc.pollResponses).1 ++
          postLoopEvents svc.thread_id
            (pollLoop (programHeaders (loadConfig env)) svc.thread_id svc.createdRun
              svc.pollResponses).2 svc) := rfl
  constructor
  · rw [htr, List.countP_append, List.countP_append]
    rw [preLoopEvents_countP_createMessage]
    rw [pollLoop_countP_zero _ _ _ _ _
      (fun e he => (pollLoop_no_create _ _ _ _ e he).2)]
    rw [List.countP_eq_zero.mpr
      (fun e he => by simp [(postLoopEvents_notServiceWrite _ _ _ e he).2.2.2.1])]
  · refine ⟨[Event.initClient (loadConfig env).project_endpoint,
      Event.createAgent (loadConfig env).model_deployment_name "fraud-alert-agent",
      Event.printAgentCreated svc.agent_id,
      Event.printMcpServer (mkMcpTool (loadConfig env)).server_url,
      Event.createThread,
      Event.printThreadCreated svc.thread_id,
      Event.readSummaryFile "risk-analyzer-tx-summary.md"],
      Event.printMessageCreated svc.message_id ::
        Event.createRun svc.thread_id svc.agent_id ::
        Event.printRunCreated svc.createdRun.id ::
        ((pollLoop (programHeaders (loadConfig env)) svc.thread_id svc.createdRun
            svc.pollResponses).1 ++
          postLoopEvents svc.thread_id
            (pollLoop (programHeaders (loadConfig env)) svc.thread_id svc.createdRun
              svc.pollResponses).2 svc), rfl, ?_, ?_⟩
    · intro e he
      simp only [List.mem_cons] at he
      rcases he with rfl | rfl | rfl | rfl | rfl | rfl | rfl | he
      all_goals
        first
          | exact absurd he (List.not_mem_nil e)
          | simp [Event.isCreateRun]
    · simp
